import Mathlib

/-!
Shallow embedding of the procedural track-generation engine of
`gym/envs/box2d/car_racing.py` (class `CarRacing`), and proofs about it.

Machine floats are modelled by exact rationals (`ℚ`).  Calls into the
transcendental math library (`math.cos`, `math.sin`, `math.atan2`) are
modelled by explicit oracle parameters `rcos rsin : ℚ → ℚ` and
`ratan2 : ℚ → ℚ → ℚ`: every theorem below holds for all interpretations
of those oracles.  Square roots only ever feed comparisons
(`np.sqrt e > t`, `norm(..) <= t`, minima/maxima of norms); since
`Real.sqrt` is monotone and all the compared quantities are
nonnegative, each comparison is embedded by the equivalent comparison
of squares (`e > t^2`, `normSq .. <= t^2`, minima/maxima of squared
norms), which is exact and keeps every definition executable.

Random draws are modelled by explicit stream parameters.  The source
draws from two distinct generators: the seeded `self.np_random`
(created by `seed()`) and the process-global `np.random` (used at
`_set_lanes` line 336, `_create_track` line 408 and
`get_rnd_point_in_track` line 858); the embedding keeps the two
separate so that claims about determinism from the seed can be
settled.
-/

namespace CarRacing

/-! ## Constants (module header of car_racing.py) -/

/-- `SCALE = 6.0` -/
def SCALE : ℚ := 6

/-- `TRACK_DETAIL_STEP = 21/SCALE` -/
def TRACK_DETAIL_STEP : ℚ := 21 / SCALE

/-- `TRACK_TURN_RATE = 0.31` -/
def TRACK_TURN_RATE : ℚ := 31 / 100

/-- `TRACK_WIDTH = 40/SCALE` -/
def TRACK_WIDTH : ℚ := 40 / SCALE

/-- `BORDER_MIN_COUNT = 4` -/
def BORDER_MIN_COUNT : ℕ := 4

/-- The IEEE double `math.pi`, as the exact decimal literal the source
prints; only its positivity matters to any proof below. -/
def piQ : ℚ := 3.141592653589793

/-- `2*math.pi` -/
def twoPi : ℚ := 2 * piQ

/-! ## `set_config` (lines 146-164)

The four configuration fields touched by `set_config`.  Integer-typed
arguments (`num_tracks`, `num_lanes`, `num_lanes_changes` are
documented as `int`) are `ℤ`; `prob_obstacle` is a float, hence `ℚ`. -/

structure Config where
  num_lanes_changes : ℤ
  num_tracks : ℤ
  num_lanes : ℤ
  prob_obstacle : ℚ
  deriving Repr, DecidableEq

/-- `set_config` (lines 161-164): each field keeps its previous value
unless the argument passes its range test, in which case the argument
is stored as given. -/
def set_config (c : Config) (num_tracks num_lanes num_lanes_changes : ℤ)
    (prob_obstacle : ℚ) : Config :=
  { num_lanes := if num_lanes > 0 ∧ num_lanes ≤ 2 then num_lanes else c.num_lanes
    num_tracks := if num_tracks > 0 ∧ num_tracks ≤ 2 then num_tracks else c.num_tracks
    prob_obstacle := if prob_obstacle ≥ 0 ∧ prob_obstacle ≤ 1 then prob_obstacle
      else c.prob_obstacle
    num_lanes_changes := if num_lanes_changes ≥ 0 then num_lanes_changes
      else c.num_lanes_changes }

/-! ## `_set_lanes` (lines 326-343)

Per iteration `i` over the concatenated track: `change = i in changes`;
`rm_lane = (rm_lane+change) % 2`; on a change that turns removal on,
the removed lane index is redrawn from the *global* generator
(`np.random.randint(0,2,1)[0]`, line 336); while `rm_lane` is set the
chosen lane slot of segment `i` is set `False`; `rm_lane` is forced to
`0` on segments flagged end/start.  Each segment's lane pair starts as
`[True, True]` (fresh list per segment, `_create_info` line 301).

`changes` is the seeded draw `self.np_random.randint(0,len(track),
num_lanes_changes)` (line 330), passed in as a list; `laneDraw` is the
stream of global draws, indexed by the segment at which the draw
happens. -/

def lanePairRemove : Fin 2 → Bool × Bool
  | 0 => (false, true)
  | 1 => (true, false)

/-- The loop body of `_set_lanes`, walking segments `is` with state
`rm` (`rm_lane`) and `lane`; returns the per-segment lane pairs. -/
def setLanesGo (changes : List ℕ) (laneDraw : ℕ → Fin 2) (endStart : ℕ → Bool) :
    List ℕ → ℕ → Fin 2 → List (Bool × Bool)
  | [], _, _ => []
  | i :: is, rm, lane =>
    let change := decide (i ∈ changes)
    let rm' := (rm + (if change then 1 else 0)) % 2
    let lane' := if change ∧ rm' = 1 then laneDraw i else lane
    let pair := if rm' = 1 then lanePairRemove lane' else (true, true)
    let rm'' := if endStart i then 0 else rm'
    pair :: setLanesGo changes laneDraw endStart is rm'' lane'

/-- `_set_lanes` (line 326): the whole body runs only when
`num_lanes_changes > 0 and num_lanes > 1`; otherwise every segment
keeps the default `[True, True]` from `_create_info`. -/
def setLanes (num_lanes_changes num_lanes : ℤ) (changes : List ℕ)
    (laneDraw : ℕ → Fin 2) (endStart : ℕ → Bool) (n : ℕ) : List (Bool × Bool) :=
  if num_lanes_changes > 0 ∧ num_lanes > 1 then
    setLanesGo changes laneDraw endStart (List.range n) 0 0
  else
    List.replicate n (true, true)

/-! ## `get_rnd_point_in_track` (lines 842-859)

`r,l = self.info[idx]['lanes']`; with `border` truthy,
`x_from = -TRACK_WIDTH*l + cos(alpha)*TRACK_WIDTH/3.5` and
`x_to = +TRACK_WIDTH*r - sin(alpha)*TRACK_WIDTH/3.5`; the lateral
offset added to the tile centre `x` is the *global* draw
`np.random.uniform(x_from, x_to)` (line 858), i.e.
`x_from + u*(x_to - x_from)` for a sample `u ∈ [0,1)`.  Lane flags
multiply as `0/1`; `ca`/`sa` stand for `cos(alpha)`/`sin(alpha)`. -/

def rndPointXFrom (l ca : ℚ) (border : Bool) : ℚ :=
  -TRACK_WIDTH * l + ca * (if border then 1 else 0) * TRACK_WIDTH / 3.5

def rndPointXTo (r sa : ℚ) (border : Bool) : ℚ :=
  TRACK_WIDTH * r - sa * (if border then 1 else 0) * TRACK_WIDTH / 3.5

/-- The lateral offset returned by `get_rnd_point_in_track`
(the value added to the chosen segment's `x`). -/
def rndPointOffset (l r ca sa u : ℚ) (border : Bool) : ℚ :=
  rndPointXFrom l ca border + u * (rndPointXTo r sa border - rndPointXFrom l ca border)

/-! ## `_create_info` track-id assignment (lines 290-305)

`info['track']` starts all-zero (`np.zeros`); then for each
`i in range(1, len(tracks))` the slice
`info[len(tracks[i-1])-1 : len(tracks[i-1])+len(tracks[i])]` is set to
`i`.  Only the lengths of the tracks matter. -/

/-- One slice assignment `info[a:b] = i` (numpy slice: positions
`a ≤ pos < b`). -/
def sliceAssign (info : List ℕ) (a b v : ℕ) : List ℕ :=
  info.mapIdx fun pos w => if a ≤ pos ∧ pos < b then v else w

/-- The `'track'` column of `_create_info`, as a function of the track
lengths. -/
def createInfoTrack (lens : List ℕ) : List ℕ :=
  ((List.range lens.length).drop 1).foldl
    (fun info i => sliceAssign info (lens.getD (i-1) 0 - 1)
      (lens.getD (i-1) 0 + lens.getD i 0) i)
    (List.replicate lens.sum 0)

/-! ## The Loop Extractor (lines 253-269 of `_get_track`) -/

/-- A raw track point `(alpha, beta, x, y)` (line 247). -/
structure TrackPoint where
  alpha : ℚ
  beta : ℚ
  x : ℚ
  y : ℚ
  deriving Repr, DecidableEq, Inhabited

/-- `pass_through_start` at index `i` (line 259):
`track[i][0] > start_alpha and track[i-1][0] <= start_alpha`. -/
def passThroughStart (tr : List TrackPoint) (sa : ℚ) (i : ℕ) : Bool :=
  decide (sa < (tr.getD i default).alpha) && decide ((tr.getD (i - 1) default).alpha ≤ sa)

/-- The backward scan of lines 254-264: `i` starts at `len(track)` and is
decremented at the top of each iteration; when it reaches `0` the scan
fails; the first crossing found becomes `i2`, the second becomes `i1`
and the scan stops.  (The `0` pattern is entry with an empty track,
which raises in Python and never occurs: entry is at `len(track)`.) -/
def scanCross (tr : List TrackPoint) (sa : ℚ) : ℕ → Option ℕ → Option (ℕ × ℕ)
  | 0, _ => none
  | i + 1, i2 =>
    if i = 0 then none
    else if passThroughStart tr sa i then
      match i2 with
      | none => scanCross tr sa i (some i)
      | some j => some (i, j)
    else scanCross tr sa i i2

/-- Lines 253-269: the scan followed by the slice `track = track[i1:i2-1]`
(line 269); `False` (failure) is `none`. -/
def extractLoop (sa : ℚ) (tr : List TrackPoint) : Option (List TrackPoint) :=
  match scanCross tr sa tr.length none with
  | none => none
  | some (i1, i2) => some ((tr.drop i1).take (i2 - 1 - i1))

/-! ## Closure check and segment conversion (lines 271-282) -/

/-- The squared closure gap of lines 271-277:
`(cos β₀ · (x₀ − x_last))² + (sin β₀ · (y₀ − y_last))²`.  The source
takes `np.sqrt` of this and compares with `TRACK_DETAIL_STEP`; the
comparison is embedded squared. -/
def wellGluedSq (rcos rsin : ℚ → ℚ) (tr : List TrackPoint) : ℚ :=
  let first := tr.getD 0 default
  let last := tr.getLast?.getD default
  (rcos first.beta * (first.x - last.x)) ^ 2 +
    (rsin first.beta * (first.y - last.y)) ^ 2

/-- A segment: ordered pair (previous point, current point). -/
abbrev Segment := TrackPoint × TrackPoint

/-- Line 281: `track = [[track[i-1],track[i]] for i in range(len(track))]`
(Python index `-1` wraps to the last element). -/
def segPairs (tr : List TrackPoint) : List Segment :=
  (List.range tr.length).map fun i =>
    (tr.getD ((i + tr.length - 1) % tr.length) default, tr.getD i default)

/-- Lines 271-282: fail when the closure gap exceeds one step length,
otherwise convert the extracted points to segments. -/
def glueAndSegments (rcos rsin : ℚ → ℚ) (tr : List TrackPoint) : Option (List Segment) :=
  if wellGluedSq rcos rsin tr > TRACK_DETAIL_STEP ^ 2 then none
  else some (segPairs tr)

/-! ## Border flags (lines 362-378 of `_create_track`) -/

/-- The first-pass `good` flag at index `i ≥ 1` (lines 366-374): the
`BORDER_MIN_COUNT` segments `i, i-1, i-2, i-3` (Python negative indices
wrap) must all change heading by more than `TRACK_TURN_RATE*0.2` and
all in the same direction (`abs(oneside) == BORDER_MIN_COUNT`). -/
def borderGood (track : List Segment) (i : ℕ) : Bool :=
  let n := track.length
  let diffs := (List.range BORDER_MIN_COUNT).map fun neg =>
    let s := track.getD ((i + n - neg) % n) default
    s.2.beta - s.1.beta
  decide ((∀ d ∈ diffs, |d| > TRACK_TURN_RATE * 0.2) ∧
    |(diffs.map fun d => if 0 < d then (1 : ℤ) else if d < 0 then -1 else 0).sum| =
      (BORDER_MIN_COUNT : ℤ))

/-- Lines 363-374: `border = [False]*len(track)`, then
`border[i] = good` for `i in range(1, len(track))`. -/
def borderPass1 (track : List Segment) : List Bool :=
  (List.range track.length).map fun i => if i = 0 then false else borderGood track i

/-- One outer iteration of the extension pass (lines 376-377):
`border[i-neg] |= border[i]` for `neg in range(BORDER_MIN_COUNT)`,
performed left to right on the mutable list. -/
def borderSpread (n : ℕ) (b : List Bool) (i : ℕ) : List Bool :=
  (List.range BORDER_MIN_COUNT).foldl
    (fun b neg =>
      let j := (i + n - neg) % n
      b.set j (b.getD j false || b.getD i false))
    b

/-- The complete border-flag computation for one track
(lines 363-378): detection pass then in-place extension pass over
`i in range(len(track))`. -/
def borderFlags (track : List Segment) : List Bool :=
  (List.range track.length).foldl (borderSpread track.length) (borderPass1 track)

/-! ## `_remove_roads` (lines 654-724)

Only the `(x,y)` coordinates of segment points take part
(`track[...,:,2:]` / `track[...,:,[2,3]]`); all norm comparisons are
embedded squared. -/

/-- A point's `(x,y)` coordinates. -/
abbrev Pt2 := ℚ × ℚ

/-- The coordinate pair of a segment, i.e. the numpy slice `track[k,:,2:]`. -/
abbrev Coords := Pt2 × Pt2

def distSq (p q : Pt2) : ℚ := (p.1 - q.1) ^ 2 + (p.2 - q.2) ^ 2

def segCoords (s : Segment) : Coords := ((s.1.x, s.1.y), (s.2.x, s.2.y))

/-- The loop of `_get_section` (lines 660-670), with fuel `2n`
(the break `pos / track.shape[0] >= 2`). -/
def getSectionGo (tr : List Coords) (first last : Pt2) :
    ℕ → ℕ → Bool → List Coords → List Coords
  | 0, _, _, acc => acc
  | fuel + 1, pos, found, acc =>
    let point := tr.getD (pos % tr.length) default
    let found' := found || decide (distSq point.2 first ≤ (TRACK_WIDTH / 2) ^ 2)
    let acc' := if found' then acc ++ [point] else acc
    if found' && decide (distSq point.2 last ≤ (TRACK_WIDTH / 2) ^ 2) then acc'
    else if fuel = 0 then acc'
    else getSectionGo tr first last fuel (pos + 1) found' acc'

/-- `_get_section` (lines 657-672): `False` (here `none`) when the
collected section is empty. -/
def getSection (first last : Pt2) (tr : List Coords) : Option (List Coords) :=
  match getSectionGo tr first last (2 * tr.length) 0 false [] with
  | [] => none
  | sec => some sec

/-- Lines 685-689: among the candidate overlap segments, keep those
whose coordinate continuity with predecessor or successor breaks
(Python `inter2[i-1]` wraps to the last element at `i = 0`). -/
def trueIntersections (inter2 : List Coords) : List Coords :=
  let m := inter2.length
  (List.range m).filterMap fun i =>
    let prev := inter2.getD ((i + m - 1) % m) default
    let cur := inter2.getD i default
    let next := inter2.getD ((i + 1) % m) default
    if prev.2 ≠ cur.1 ∨ cur.2 ≠ next.1 then some cur else none

/-- `THRESHOLD = TRACK_WIDTH*2` (line 674). -/
def THRESHOLD : ℚ := TRACK_WIDTH * 2

/-- Lines 706-710 with squared distances: for each second-row point of
`sec1` the minimum squared distance to second-row points of `sec2`,
then the running maximum starting from `0` (`max_min_d`). -/
def maxMinDistSq (sec1 sec2 : List Coords) : ℚ :=
  sec1.foldl (fun m c1 =>
    let ds := sec2.map fun c2 => distSq c2.2 c1.2
    let d := ds.foldl min (ds.headD 0)
    if m < d then d else m) 0

/-- Line 716: indices of `track2` whose coordinates equal `point`
(`np.all(track2[:,:,[2,3]] == point, axis=(1,2))`). -/
def matchingIdx (t2c : List Coords) (point : Coords) : List ℕ :=
  (List.range t2c.length).filter fun j => t2c.getD j default = point

/-- The set `removed_idx` accumulated by the loop of lines 697-717. -/
def removedIdx (t1c t2c : List Coords) (inters : List Coords) : List ℕ :=
  (List.range inters.length).foldl (fun removed i =>
    let m := inters.length
    let first := (inters.getD ((i + m - 1) % m) default).2
    let last := (inters.getD i default).1
    match getSection first last t1c, getSection first last t2c with
    | some sec1, some sec2 =>
      if maxMinDistSq sec1 sec2 < (THRESHOLD * 2) ^ 2 then
        removed ++ (sec2.map (matchingIdx t2c)).flatten
      else removed
    | _, _ => removed) []

/-- `np.delete(track2, list(removed_idx), axis=0)` (line 719): keep, in
order, the elements whose index is not in the removal set. -/
def deleteIdx {α : Type} (rm : List ℕ) : List α → ℕ → List α
  | [], _ => []
  | a :: l, i => if i ∈ rm then deleteIdx rm l (i + 1) else a :: deleteIdx rm l (i + 1)

/-- `_remove_roads` (lines 654-724): a no-op unless `num_tracks > 1`;
otherwise compute the candidate/intersection/section analysis on
tracks 0 and 1 and delete the marked indices from track 1; track 0 is
written back unchanged. -/
def removeRoads (num_tracks : ℤ) (tracks : List (List Segment)) : List (List Segment) :=
  if num_tracks > 1 then
    match tracks with
    | t1 :: t2 :: rest =>
      let t1c := t1.map segCoords
      let t2c := t2.map segCoords
      let inter2 := t2c.filter fun c =>
        t1c.any fun c1 => decide (distSq c1.2 c.2 ≤ (TRACK_WIDTH / 3.5) ^ 2)
      let rm := removedIdx t1c t2c (trueIntersections inter2)
      t1 :: deleteIdx rm t2 0 :: rest
    | other => other
  else tracks

/-! ## The Path Walker (lines 181-250 of `_get_track`)

The checkpoints (lines 186-197) are inputs here; the walk loop draws no
randomness.  `math.cos`, `math.sin` and `math.atan2` are the oracle
parameters `rcos`, `rsin`, `ratan2`. -/

/-- `TRACK_RAD = 900/SCALE` -/
def TRACK_RAD : ℚ := 900 / SCALE

/-- A checkpoint `(alpha, x, y)` (line 197). -/
structure Checkpoint where
  alpha : ℚ
  x : ℚ
  y : ℚ
  deriving Repr, DecidableEq, Inhabited

/-- The innermost destination scan (lines 222-228): succeed with the
current cursor when `alpha <= dest_alpha`, else advance the cursor;
fail, returning the advanced cursor, when it reaches the next multiple
of `len(checkpoints)`.  (An empty checkpoint list raises in Python and
is never constructed — `CHECKPOINTS` is fixed at 12; the guard returns
`.ok` there only for totality.) -/
def scanPass (cps : List Checkpoint) (alpha : ℚ) (di : ℕ) : Except ℕ ℕ :=
  if h0 : cps.length = 0 then .ok di
  else if alpha ≤ (cps.getD (di % cps.length) default).alpha then .ok di
  else if h1 : (di + 1) % cps.length = 0 then .error (di + 1)
  else scanPass cps alpha (di + 1)
termination_by cps.length - di % cps.length
decreasing_by
  have hK : 0 < cps.length := Nat.pos_of_ne_zero h0
  have hlt : di % cps.length < cps.length := Nat.mod_lt _ hK
  rcases Nat.lt_or_ge 1 cps.length with h2 | h2
  · have h1m : 1 % cps.length = 1 := Nat.mod_eq_of_lt h2
    have hadd : (di + 1) % cps.length = (di % cps.length + 1) % cps.length := by
      rw [Nat.add_mod, h1m]
    by_cases hedge : di % cps.length + 1 = cps.length
    · rw [hadd, hedge, Nat.mod_self] at h1
      exact absurd rfl h1
    · have hlt2 : di % cps.length + 1 < cps.length := by omega
      rw [hadd, Nat.mod_eq_of_lt hlt2]
      omega
  · have hone : cps.length = 1 := by omega
    rw [hone] at h1
    exact absurd (Nat.mod_one _) h1

/-- A failed scan pass always leaves the cursor at a multiple of
`len(checkpoints)` (the break at line 228). -/
theorem scanPass_error_mod (cps : List Checkpoint) (alpha : ℚ) (di e : ℕ)
    (h : scanPass cps alpha di = .error e) : e % cps.length = 0 := by
  induction di using scanPass.induct cps alpha with
  | case1 di h0 =>
    rw [scanPass, dif_pos h0] at h
    exact Except.noConfusion h
  | case2 di h0 hle =>
    rw [scanPass, dif_neg h0, if_pos hle] at h
    exact Except.noConfusion h
  | case3 di h0 hle h1 =>
    rw [scanPass, dif_neg h0, if_neg hle, dif_pos h1] at h
    injection h with h2
    exact h2 ▸ h1
  | case4 di h0 hle h1 ih =>
    rw [scanPass, dif_neg h0, if_neg hle, dif_neg h1] at h
    exact ih h

/-- A scan pass that starts at a multiple of `len(checkpoints)` checks
checkpoint 0 first, so it can only fail when `alpha` still exceeds
checkpoint 0's angle. -/
theorem scanPass_error_start (cps : List Checkpoint) (alpha : ℚ) (di e : ℕ)
    (hdi : di % cps.length = 0) (h : scanPass cps alpha di = .error e) :
    (cps.getD 0 default).alpha < alpha := by
  rw [scanPass] at h
  by_cases h0 : cps.length = 0
  · rw [dif_pos h0] at h
    exact Except.noConfusion h
  · rw [dif_neg h0] at h
    by_cases hle : alpha ≤ (cps.getD (di % cps.length) default).alpha
    · rw [if_pos hle] at h
      exact Except.noConfusion h
    · rw [hdi] at hle
      exact lt_of_not_le hle

/-- `twoPi` is positive (used only for termination measures). -/
theorem twoPi_pos : (0 : ℚ) < twoPi := by norm_num [twoPi, piQ]

/-- The destination-search loop (lines 220-231): run one scan pass; on
failure `alpha -= 2*math.pi` and rescan from the advanced cursor.
Returns the possibly-lowered `alpha` and the final cursor `dest_i`. -/
def findDest (cps : List Checkpoint) (alpha : ℚ) (di : ℕ) : ℚ × ℕ :=
  match h : scanPass cps alpha di with
  | .ok di' => (alpha, di')
  | .error diEnd => findDest cps (alpha - twoPi) diEnd
termination_by
  (⌈(alpha - (cps.getD 0 default).alpha) / twoPi⌉.toNat) +
    (if di % cps.length = 0 then 0 else 1)
decreasing_by
  have hmod : diEnd % cps.length = 0 := scanPass_error_mod cps alpha di diEnd h
  have harg : (alpha - twoPi - (cps.getD 0 default).alpha) / twoPi =
      (alpha - (cps.getD 0 default).alpha) / twoPi - 1 := by
    have ht : twoPi ≠ 0 := ne_of_gt twoPi_pos
    field_simp
    ring
  have hc : ⌈(alpha - twoPi - (cps.getD 0 default).alpha) / twoPi⌉ =
      ⌈(alpha - (cps.getD 0 default).alpha) / twoPi⌉ - 1 := by
    rw [harg]
    exact_mod_cast Int.ceil_sub_one _
  rw [hc, if_pos hmod]
  by_cases hdi : di % cps.length = 0
  · have hlt : (cps.getD 0 default).alpha < alpha :=
      scanPass_error_start cps alpha di diEnd hdi h
    have hcpos : 0 < ⌈(alpha - (cps.getD 0 default).alpha) / twoPi⌉ :=
      Int.ceil_pos.mpr (div_pos (by linarith) twoPi_pos)
    rw [if_pos hdi]
    omega
  · rw [if_neg hdi]
    omega

/-- `while beta - alpha > 1.5*math.pi: beta -= 2*math.pi` (line 239). -/
def betaDown (alpha beta : ℚ) : ℚ :=
  if _h : beta - alpha > 1.5 * piQ then betaDown alpha (beta - twoPi) else beta
termination_by (⌈(beta - alpha - 1.5 * piQ) / twoPi⌉.toNat)
decreasing_by
  have harg : (beta - twoPi - alpha - 1.5 * piQ) / twoPi =
      (beta - alpha - 1.5 * piQ) / twoPi - 1 := by
    have ht : twoPi ≠ 0 := ne_of_gt twoPi_pos
    field_simp
    ring
  have hc : ⌈(beta - twoPi - alpha - 1.5 * piQ) / twoPi⌉ =
      ⌈(beta - alpha - 1.5 * piQ) / twoPi⌉ - 1 := by
    rw [harg]
    exact_mod_cast Int.ceil_sub_one _
  have hcpos : 0 < ⌈(beta - alpha - 1.5 * piQ) / twoPi⌉ :=
    Int.ceil_pos.mpr (div_pos (by linarith) twoPi_pos)
  rw [hc]
  omega

/-- `while beta - alpha < -1.5*math.pi: beta += 2*math.pi` (line 240). -/
def betaUp (alpha beta : ℚ) : ℚ :=
  if _h : beta - alpha < -(1.5 * piQ) then betaUp alpha (beta + twoPi) else beta
termination_by (⌈(alpha - 1.5 * piQ - beta) / twoPi⌉.toNat)
decreasing_by
  have harg : (alpha - 1.5 * piQ - (beta + twoPi)) / twoPi =
      (alpha - 1.5 * piQ - beta) / twoPi - 1 := by
    have ht : twoPi ≠ 0 := ne_of_gt twoPi_pos
    field_simp
    ring
  have hc : ⌈(alpha - 1.5 * piQ - (beta + twoPi)) / twoPi⌉ =
      ⌈(alpha - 1.5 * piQ - beta) / twoPi⌉ - 1 := by
    rw [harg]
    exact_mod_cast Int.ceil_sub_one _
  have hcpos : 0 < ⌈(alpha - 1.5 * piQ - beta) / twoPi⌉ :=
    Int.ceil_pos.mpr (div_pos (by linarith) twoPi_pos)
  rw [hc]
  omega

/-- The mutable state of the walk loop (lines 206-211). -/
structure WalkState where
  x : ℚ
  y : ℚ
  beta : ℚ
  dest_i : ℕ
  laps : ℕ
  visited_other_side : Bool
  deriving Repr, DecidableEq, Inhabited

/-- One iteration of the walk loop body (lines 213-247), emitting the
appended `TrackPoint` and the updated state. -/
def walkStep (rcos rsin : ℚ → ℚ) (ratan2 : ℚ → ℚ → ℚ) (cps : List Checkpoint)
    (s : WalkState) : TrackPoint × WalkState :=
  let alpha0 := ratan2 s.y s.x
  let lapNow := s.visited_other_side ∧ alpha0 > 0
  let laps := if lapNow then s.laps + 1 else s.laps
  let vos0 := if lapNow then false else s.visited_other_side
  let vos := if alpha0 < 0 then true else vos0
  let alpha1 := if alpha0 < 0 then alpha0 + twoPi else alpha0
  let fd := findDest cps alpha1 s.dest_i
  let alpha := fd.1
  let di := fd.2
  let dest := cps.getD (di % cps.length) default
  let r1x := rcos s.beta
  let r1y := rsin s.beta
  let p1x := -r1y
  let p1y := r1x
  let proj0 := r1x * (dest.x - s.x) + r1y * (dest.y - s.y)
  let beta0 := betaUp alpha (betaDown alpha s.beta)
  let prev_beta := beta0
  let proj := proj0 * SCALE
  let beta1 := if proj > 0.3 then beta0 - min TRACK_TURN_RATE |0.001 * proj| else beta0
  let beta2 := if proj < -(0.3 : ℚ) then beta1 + min TRACK_TURN_RATE |0.001 * proj| else beta1
  let x := s.x + p1x * TRACK_DETAIL_STEP
  let y := s.y + p1y * TRACK_DETAIL_STEP
  (⟨alpha, prev_beta * 0.5 + beta2 * 0.5, x, y⟩,
   ⟨x, y, beta2, di, laps, vos⟩)

/-- The outer walk loop (lines 212-250): `nf` is the current value of
`no_freeze`; each iteration appends exactly one point, then breaks if
`laps > 4`, then decrements `no_freeze` and breaks when it reaches 0. -/
def walkGo (rcos rsin : ℚ → ℚ) (ratan2 : ℚ → ℚ → ℚ) (cps : List Checkpoint) :
    ℕ → WalkState → List TrackPoint
  | 0, _ => []
  | nf + 1, s =>
    let r := walkStep rcos rsin ratan2 cps s
    if r.2.laps > 4 then [r.1]
    else if nf = 0 then [r.1]
    else r.1 :: walkGo rcos rsin ratan2 cps nf r.2

/-- The raw path walk of `_get_track` (lines 206-250): start at
`x = 1.5*TRACK_RAD, y = 0, beta = 0`, cursor 0, no laps, budget
`no_freeze = 2500`. -/
def walkTrack (rcos rsin : ℚ → ℚ) (ratan2 : ℚ → ℚ → ℚ)
    (cps : List Checkpoint) : List TrackPoint :=
  walkGo rcos rsin ratan2 cps 2500 ⟨1.5 * TRACK_RAD, 0, 0, 0, 0, false⟩

/-! ## Concrete inputs used in the analysis -/

/-- A segment with no heading change (`beta` equal at both points). -/
def flatSeg : Segment := (⟨0, 0, 0, 0⟩, ⟨0, 0, 0, 0⟩)

/-- A segment whose heading changes by `1` (well above
`TRACK_TURN_RATE*0.2`). -/
def sharpSeg : Segment := (⟨0, 0, 0, 0⟩, ⟨0, 1, 0, 0⟩)

/-- An 8-segment track that turns sharply on its last four segments
only; the detection pass flags exactly index 7. -/
def sharpTrack : List Segment :=
  [flatSeg, flatSeg, flatSeg, flatSeg, sharpSeg, sharpSeg, sharpSeg, sharpSeg]

/-! # Theorems -/

/-! ## C10: `set_config` frame behaviour -/

/-- C10: `set_config` leaves each configuration field unchanged when its
argument is out of range and touches no other field: `num_lanes` and
`num_tracks` keep their previous values unless the argument is in
`{1,2}`, `prob_obstacle` unless the argument is in `[0,1]`,
`num_lanes_changes` unless the argument is `≥ 0`; every in-range
argument is stored exactly as given. -/
theorem set_config_spec (c : Config) (nt nl nlc : ℤ) (p : ℚ) :
    (set_config c nt nl nlc p).num_lanes = (if nl = 1 ∨ nl = 2 then nl else c.num_lanes) ∧
    (set_config c nt nl nlc p).num_tracks = (if nt = 1 ∨ nt = 2 then nt else c.num_tracks) ∧
    (set_config c nt nl nlc p).prob_obstacle =
      (if 0 ≤ p ∧ p ≤ 1 then p else c.prob_obstacle) ∧
    (set_config c nt nl nlc p).num_lanes_changes =
      (if 0 ≤ nlc then nlc else c.num_lanes_changes) := by
  have hnl : (nl > 0 ∧ nl ≤ 2) ↔ (nl = 1 ∨ nl = 2) := by omega
  have hnt : (nt > 0 ∧ nt ≤ 2) ↔ (nt = 1 ∨ nt = 2) := by omega
  have hp : (p ≥ 0 ∧ p ≤ 1) ↔ (0 ≤ p ∧ p ≤ 1) := Iff.rfl
  have hnlc : (nlc ≥ 0) ↔ (0 ≤ nlc) := Iff.rfl
  refine ⟨?_, ?_, ?_, ?_⟩ <;> simp only [set_config, hnl, hnt, hp, hnlc]

/-! ## C4: lane presence invariant -/

/-- The pair written for one segment by `_set_lanes` always keeps one
`true` slot. -/
theorem lanePair_present (rm : ℕ) (lane : Fin 2) :
    (if rm = 1 then lanePairRemove lane else ((true : Bool), (true : Bool))).1 = true ∨
    (if rm = 1 then lanePairRemove lane else ((true : Bool), (true : Bool))).2 = true := by
  split
  · fin_cases lane <;> simp [lanePairRemove]
  · left; rfl

/-- Helper for C4: every lane pair emitted by the `_set_lanes` loop body
has at least one `true` slot (the removal branch clears exactly one
slot of the fresh `[True, True]` pair). -/
theorem setLanesGo_lane_present (changes : List ℕ) (laneDraw : ℕ → Fin 2)
    (endStart : ℕ → Bool) :
    ∀ (is : List ℕ) (rm : ℕ) (lane : Fin 2),
      ∀ pr ∈ setLanesGo changes laneDraw endStart is rm lane,
        pr.1 = true ∨ pr.2 = true := by
  intro is
  induction is with
  | nil => intro rm lane pr hpr; simp [setLanesGo] at hpr
  | cons i is ih =>
    intro rm lane pr hpr
    simp only [setLanesGo, List.mem_cons] at hpr
    rcases hpr with h | h
    · subst h
      exact lanePair_present _ _
    · exact ih _ _ pr h

/-- C4: after `_create_info` (which initialises every segment's lane
pair to `[True, True]`) and `_set_lanes` have run, every segment's lane
pair has at least one `true` entry, for every configuration and every
random draw (seeded or global). -/
theorem setLanes_lane_present (nlc nl : ℤ) (changes : List ℕ)
    (laneDraw : ℕ → Fin 2) (endStart : ℕ → Bool) (n : ℕ) :
    ∀ pr ∈ setLanes nlc nl changes laneDraw endStart n,
      pr.1 = true ∨ pr.2 = true := by
  intro pr hpr
  unfold setLanes at hpr
  split at hpr
  · exact setLanesGo_lane_present changes laneDraw endStart _ _ _ pr hpr
  · left
    rw [List.eq_of_mem_replicate hpr]

/-- Witness for C4 at a concrete input: `setLanes 1 2 [0] (fun _ => 0)
(fun _ => false) 1` evaluates to `[(false, true)]`. -/
theorem setLanes_lane_present_witness :
    (false, true).1 = true ∨ (false, true).2 = true :=
  setLanes_lane_present 1 2 [0] (fun _ => 0) (fun _ => false) 1 (false, true) (by decide)

/-! ## C1: determinism from the seed alone (refuted) -/

/-- C1 (code bug evaluated at a failing input): with every seeded input
held fixed, the generated metadata still depends on the process-global
`np.random` stream.  Left conjunct: `_set_lanes` with the same seeded
`changes = [1]` on a 4-segment track yields different lane arrays when
the global draw at line 336 returns lane `0` versus lane `1`.  Right
conjunct: `get_rnd_point_in_track` with the same seeded segment choice
yields different lateral offsets for two global uniform samples
(line 858).  Hence two runs from the same seed need not be
bit-identical, contradicting the claim; the intent (gym's `seed()`
convention, and `self.np_random` used everywhere else) makes this a
slip in the code. -/
theorem generation_depends_on_global_rng :
    (setLanes 1 2 [1] (fun _ => 0) (fun _ => false) 4 ≠
      setLanes 1 2 [1] (fun _ => 1) (fun _ => false) 4) ∧
    (rndPointOffset 1 1 1 0 0 true ≠ rndPointOffset 1 1 1 0 (1/2) true) := by
  refine ⟨by decide, ?_⟩
  norm_num [rndPointOffset, rndPointXFrom, rndPointXTo, TRACK_WIDTH, SCALE]

/-! ## C8: lateral offset of `get_rnd_point_in_track` (corrected) -/

/-- C8 counterexample: at a segment with both lanes present and
`alpha = π` (so `cos(alpha) = -1`, `sin(alpha) = 0`), the global draw
`u = 0` gives lateral offset `x_from = -TRACK_WIDTH - TRACK_WIDTH/3.5`,
which lies outside the claimed interval
`[-TRACK_WIDTH*l, +TRACK_WIDTH*r] = [-TRACK_WIDTH, TRACK_WIDTH]`. -/
theorem rndPointOffset_not_within :
    ¬ (-(TRACK_WIDTH * 1) < rndPointOffset 1 1 (-1) 0 0 true ∧
        rndPointOffset 1 1 (-1) 0 0 true < TRACK_WIDTH * 1) := by
  intro hcontra
  have h1 := hcontra.1
  norm_num [rndPointOffset, rndPointXFrom, rndPointXTo, TRACK_WIDTH, SCALE] at h1

/-- C8 amended: with `border=True` the lateral offset is a convex
combination of `x_from = -TRACK_WIDTH*l + cos(alpha)*TRACK_WIDTH/3.5`
and `x_to = +TRACK_WIDTH*r - sin(alpha)*TRACK_WIDTH/3.5`, hence lies
in the closed interval between them (not, in general, within
`[-TRACK_WIDTH*l, +TRACK_WIDTH*r]`). -/
theorem rndPointOffset_between (l r ca sa u : ℚ) (b : Bool)
    (h0 : 0 ≤ u) (h1 : u ≤ 1) :
    min (rndPointXFrom l ca b) (rndPointXTo r sa b) ≤ rndPointOffset l r ca sa u b ∧
    rndPointOffset l r ca sa u b ≤ max (rndPointXFrom l ca b) (rndPointXTo r sa b) := by
  unfold rndPointOffset
  constructor
  · rcases le_total (rndPointXFrom l ca b) (rndPointXTo r sa b) with hc | hc
    · rw [min_eq_left hc]; nlinarith
    · rw [min_eq_right hc]; nlinarith
  · rcases le_total (rndPointXFrom l ca b) (rndPointXTo r sa b) with hc | hc
    · rw [max_eq_right hc]; nlinarith
    · rw [max_eq_left hc]; nlinarith

/-- Witness for the amended C8 at `l = r = 1`, `alpha = π`, `u = 1/2`. -/
theorem rndPointOffset_between_witness :
    min (rndPointXFrom 1 (-1) true) (rndPointXTo 1 0 true) ≤
      rndPointOffset 1 1 (-1) 0 (1/2) true ∧
    rndPointOffset 1 1 (-1) 0 (1/2) true ≤
      max (rndPointXFrom 1 (-1) true) (rndPointXTo 1 0 true) :=
  rndPointOffset_between 1 1 (-1) 0 (1/2) true (by norm_num) (by norm_num)

/-! ## C7: track-id assignment of `_create_info` (corrected) -/

/-- C7 counterexample: with track lengths `[3, 2]` the `'track'` column
is `[0, 0, 1, 1, 1]`: the concatenated segment at index 2 originates
from track 0 (indices 0,1,2) yet is assigned trackId 1, because the
slice assignment starts at `len(tracks[0]) - 1` (line 305). -/
theorem createInfoTrack_mislabels :
    createInfoTrack [3, 2] = [0, 0, 1, 1, 1] ∧
    (createInfoTrack [3, 2]).getD 2 0 ≠ 0 := by
  decide

/-- C7 amended: for a two-track set with `n0 ≥ 1` segments in track 0,
the `'track'` column assigns 0 to the first `n0 - 1` segments and 1 to
everything from index `n0 - 1` on: every segment of track 1 gets
trackId 1, and every segment of track 0 gets trackId 0 except the last
one, which gets trackId 1. -/
theorem createInfoTrack_two (n0 n1 : ℕ) (h : 1 ≤ n0) :
    createInfoTrack [n0, n1] =
      List.replicate (n0 - 1) 0 ++ List.replicate (n1 + 1) 1 := by
  unfold createInfoTrack
  simp only [List.length_cons, List.length_nil]
  norm_num [List.range_succ]
  show sliceAssign (List.replicate (n0 + n1) 0) (n0 - 1) (n0 + n1) 1 = _
  unfold sliceAssign
  apply List.ext_getElem
  · simp
    omega
  · intro i hi hi2
    rw [List.length_mapIdx, List.length_replicate] at hi
    simp only [List.getElem_mapIdx, List.getElem_replicate]
    by_cases hi3 : i < n0 - 1
    · rw [List.getElem_append_left (by simpa using hi3), List.getElem_replicate,
        if_neg (by omega)]
    · rw [List.getElem_append_right (by simp only [List.length_replicate]; omega),
        List.getElem_replicate, if_pos (by omega)]

/-- Witness for the amended C7 at track lengths `[3, 2]`. -/
theorem createInfoTrack_two_witness :
    createInfoTrack [3, 2] = List.replicate 2 0 ++ List.replicate 3 1 :=
  createInfoTrack_two 3 2 (by decide)

/-! ## C2: the Loop Extractor scan (corrected) -/

/-- Helper: with `i2` already found, the scan returns `none` exactly
when no crossing lies in `[1, i)`. -/
theorem scanCross_some_none (tr : List TrackPoint) (sa : ℚ) (k : ℕ) :
    ∀ i, scanCross tr sa i (some k) = none ↔
      ∀ j, 1 ≤ j → j < i → passThroughStart tr sa j = false := by
  intro i
  induction i with
  | zero =>
    simp only [scanCross, true_iff]
    omega
  | succ i ih =>
    by_cases h0 : i = 0
    · subst h0
      constructor
      · intro _ j h1 h2
        omega
      · intro _
        rfl
    · by_cases hc : passThroughStart tr sa i = true
      · simp only [scanCross, if_neg h0, if_pos hc]
        constructor
        · intro h
          exact absurd h (by simp)
        · intro h
          exact absurd (h i (by omega) (by omega)) (by simp [hc])
      · simp only [scanCross, if_neg h0, if_neg hc, ih]
        constructor
        · intro h j h1 h2
          rcases Nat.lt_or_ge j i with hj | hj
          · exact h j h1 hj
          · have : j = i := by omega
            subst this
            exact Bool.not_eq_true _ ▸ (by simpa using hc)
        · intro h j h1 h2
          exact h j h1 (by omega)

/-- Helper: with `i2 = k` already found, a successful scan returns
`(i1, k)` where `i1` is the greatest crossing index below `i`. -/
theorem scanCross_some_some (tr : List TrackPoint) (sa : ℚ) (k : ℕ) :
    ∀ i i1 j2, scanCross tr sa i (some k) = some (i1, j2) →
      j2 = k ∧ passThroughStart tr sa i1 = true ∧ 1 ≤ i1 ∧ i1 < i ∧
        ∀ j, i1 < j → j < i → passThroughStart tr sa j = false := by
  intro i
  induction i with
  | zero =>
    intro i1 j2 h
    exact absurd h (by simp [scanCross])
  | succ i ih =>
    intro i1 j2 h
    by_cases h0 : i = 0
    · subst h0
      exact absurd h (by simp [scanCross])
    · by_cases hc : passThroughStart tr sa i = true
      · simp only [scanCross, if_neg h0, if_pos hc, Option.some.injEq, Prod.mk.injEq] at h
        obtain ⟨h1, h2⟩ := h
        subst h1; subst h2
        exact ⟨rfl, hc, by omega, by omega, by omega⟩
      · simp only [scanCross, if_neg h0, if_neg hc] at h
        obtain ⟨hk, hcr, hge, hlt, hgap⟩ := ih i1 j2 h
        refine ⟨hk, hcr, hge, by omega, ?_⟩
        intro j hj1 hj2
        rcases Nat.lt_or_ge j i with hj | hj
        · exact hgap j hj1 hj
        · have : j = i := by omega
          subst this
          simpa using hc

/-- Helper: from a fresh state the scan fails exactly when there are no
two crossing indices in `[1, i)`. -/
theorem scanCross_none_none (tr : List TrackPoint) (sa : ℚ) :
    ∀ i, scanCross tr sa i none = none ↔
      ∀ j1 j2, 1 ≤ j1 → j1 < j2 → j2 < i →
        ¬(passThroughStart tr sa j1 = true ∧ passThroughStart tr sa j2 = true) := by
  intro i
  induction i with
  | zero =>
    simp only [scanCross, true_iff]
    omega
  | succ i ih =>
    by_cases h0 : i = 0
    · subst h0
      constructor
      · intro _ j1 j2 h1 h2 h3
        omega
      · intro _
        rfl
    · by_cases hc : passThroughStart tr sa i = true
      · simp only [scanCross, if_neg h0, if_pos hc, scanCross_some_none]
        constructor
        · intro h j1 j2 h1 h2 h3 hcontra
          rcases Nat.lt_or_ge j2 i with hj | hj
          · exact absurd hcontra.2 (by simp [h j2 (by omega) hj])
          · exact absurd hcontra.1 (by simp [h j1 h1 (by omega)])
        · intro h j h1 h2
          by_contra hcj
          exact h j i h1 h2 (by omega) ⟨by simpa using hcj, hc⟩
      · simp only [scanCross, if_neg h0, if_neg hc, ih]
        constructor
        · intro h j1 j2 h1 h2 h3 hcontra
          rcases Nat.lt_or_ge j2 i with hj | hj
          · exact h j1 j2 h1 h2 hj hcontra
          · have : j2 = i := by omega
            subst this
            exact absurd hcontra.2 (by simpa using hc)
        · intro h j1 j2 h1 h2 h3
          exact h j1 j2 h1 h2 (by omega)

/-- Helper: from a fresh state a successful scan returns the two most
recent crossing indices below `i`. -/
theorem scanCross_none_some (tr : List TrackPoint) (sa : ℚ) :
    ∀ i i1 i2, scanCross tr sa i none = some (i1, i2) →
      passThroughStart tr sa i1 = true ∧ passThroughStart tr sa i2 = true ∧
        1 ≤ i1 ∧ i1 < i2 ∧ i2 < i ∧
        (∀ j, i1 < j → j < i2 → passThroughStart tr sa j = false) ∧
        (∀ j, i2 < j → j < i → passThroughStart tr sa j = false) := by
  intro i
  induction i with
  | zero =>
    intro i1 i2 h
    exact absurd h (by simp [scanCross])
  | succ i ih =>
    intro i1 i2 h
    by_cases h0 : i = 0
    · subst h0
      exact absurd h (by simp [scanCross])
    · by_cases hc : passThroughStart tr sa i = true
      · simp only [scanCross, if_neg h0, if_pos hc] at h
        obtain ⟨hk, hcr, hge, hlt, hgap⟩ := scanCross_some_some tr sa i i i1 i2 h
        subst hk
        exact ⟨hcr, hc, hge, hlt, by omega, hgap, by omega⟩
      · simp only [scanCross, if_neg h0, if_neg hc] at h
        obtain ⟨hc1, hc2, hge, hlt, hi2, hgap1, hgap2⟩ := ih i1 i2 h
        refine ⟨hc1, hc2, hge, hlt, by omega, hgap1, ?_⟩
        intro j hj1 hj2
        rcases Nat.lt_or_ge j i with hj | hj
        · exact hgap2 j hj1 hj
        · have : j = i := by omega
          subst this
          simpa using hc

/-- C2 counterexample: for the track with `alpha` sequence
`[1, -1, 1, 2, -1, 1, 1]` and `startAlpha = 0`, the two most recent
crossings-from-above are `i1 = 2` and `i2 = 5`.  The claim says the
extracted loop is the points strictly between them (indices 3 and 4,
containing neither endpoint), but the code slice `track[i1:i2-1]`
yields indices 2 and 3: it contains the point at `i1` and omits the
point at index `i2 - 1`. -/
theorem extractLoop_includes_i1 :
    extractLoop 0 [⟨1,0,0,0⟩, ⟨-1,1,0,0⟩, ⟨1,2,0,0⟩, ⟨2,3,0,0⟩, ⟨-1,4,0,0⟩,
        ⟨1,5,0,0⟩, ⟨1,6,0,0⟩] = some [⟨1,2,0,0⟩, ⟨2,3,0,0⟩] ∧
      some [(⟨1,2,0,0⟩ : TrackPoint), ⟨2,3,0,0⟩] ≠
        some [(⟨2,3,0,0⟩ : TrackPoint), ⟨-1,4,0,0⟩] := by
  constructor <;> decide

/-- C2 amended: the Loop Extractor scans backward from the end for
indices where `alpha` crosses `startAlpha` from above, and fails
exactly when fewer than two such crossings exist among indices
`1 .. len-1`; on success, with `i1 < i2` the two most recent crossing
indices, the extracted sequence is the slice `track[i1 : i2-1]` —
indices `i1 .. i2-2`, which contains the point at `i1` and excludes
the points at `i2-1` and `i2` (not the claimed "strictly between
`i1` and `i2`"). -/
theorem extractLoop_characterization (sa : ℚ) (tr : List TrackPoint) :
    (extractLoop sa tr = none ↔
      ∀ j1 j2, 1 ≤ j1 → j1 < j2 → j2 < tr.length →
        ¬(passThroughStart tr sa j1 = true ∧ passThroughStart tr sa j2 = true)) ∧
    (∀ l, extractLoop sa tr = some l →
      ∃ i1 i2, passThroughStart tr sa i1 = true ∧ passThroughStart tr sa i2 = true ∧
        1 ≤ i1 ∧ i1 < i2 ∧ i2 < tr.length ∧
        (∀ j, i1 < j → j < i2 → passThroughStart tr sa j = false) ∧
        (∀ j, i2 < j → j < tr.length → passThroughStart tr sa j = false) ∧
        l = (tr.drop i1).take (i2 - 1 - i1)) := by
  constructor
  · unfold extractLoop
    rcases hscan : scanCross tr sa tr.length none with _ | ⟨i1, i2⟩
    · simpa [hscan] using (scanCross_none_none tr sa tr.length).mp hscan
    · simp only [reduceCtorEq, false_iff]
      intro h
      obtain ⟨hc1, hc2, hge, hlt, hi2, _, _⟩ := scanCross_none_some tr sa tr.length i1 i2 hscan
      exact h i1 i2 hge hlt hi2 ⟨hc1, hc2⟩
  · intro l hl
    unfold extractLoop at hl
    rcases hscan : scanCross tr sa tr.length none with _ | ⟨i1, i2⟩
    · rw [hscan] at hl
      exact absurd hl (by simp)
    · rw [hscan] at hl
      obtain ⟨hc1, hc2, hge, hlt, hi2, hgap1, hgap2⟩ :=
        scanCross_none_some tr sa tr.length i1 i2 hscan
      refine ⟨i1, i2, hc1, hc2, hge, hlt, hi2, hgap1, hgap2, ?_⟩
      simpa using hl.symm

/-- Witness for the amended C2: a track whose `alpha` sequence
`[1, -1, 1]` has exactly one crossing of `startAlpha = 0`, so
extraction fails. -/
theorem extractLoop_characterization_witness :
    extractLoop 0 [⟨1,0,0,0⟩, ⟨-1,1,0,0⟩, ⟨1,2,0,0⟩] = none := by
  apply (extractLoop_characterization 0 [⟨1,0,0,0⟩, ⟨-1,1,0,0⟩, ⟨1,2,0,0⟩]).1.mpr
  intro j1 j2 h1 h2 h3 hc
  have hj : j1 = 1 ∧ j2 = 2 := by simp at h3; omega
  obtain ⟨e1, e2⟩ := hj
  subst e1; subst e2
  exact absurd hc.1 (by decide)

/-! ## C6: border flags and the extend-backward rule (corrected) -/

/-- An or-update of one flag never clears another flag. -/
theorem getD_set_or (b : List Bool) (k j : ℕ) (v : Bool)
    (hj : b.getD j false = true) :
    (b.set k (b.getD k false || v)).getD j false = true := by
  by_cases hkj : k = j
  · subst hkj
    by_cases hk : k < b.length
    · rw [List.getD_eq_getElem?_getD, List.getElem?_set_self hk, Option.getD_some, hj]
      simp
    · exfalso
      rw [List.getD_eq_getElem?_getD, List.getElem?_eq_none (le_of_not_lt hk)] at hj
      simp at hj
  · rw [List.getD_eq_getElem?_getD, List.getElem?_set_ne hkj, ← List.getD_eq_getElem?_getD]
    exact hj

/-- The inner extension fold (over `neg`) only turns flags on. -/
theorem borderSpreadFold_mono (n i : ℕ) (l : List ℕ) :
    ∀ (b : List Bool) (j : ℕ), b.getD j false = true →
      (l.foldl (fun b neg => b.set ((i + n - neg) % n)
        (b.getD ((i + n - neg) % n) false || b.getD i false)) b).getD j false = true := by
  induction l with
  | nil => intro b j hj; exact hj
  | cons a l ih =>
    intro b j hj
    simp only [List.foldl_cons]
    exact ih _ j (getD_set_or b _ j _ hj)

/-- The inner extension fold preserves the flag-list length. -/
theorem borderSpreadFold_length (n i : ℕ) (l : List ℕ) :
    ∀ b : List Bool,
      (l.foldl (fun b neg => b.set ((i + n - neg) % n)
        (b.getD ((i + n - neg) % n) false || b.getD i false)) b).length = b.length := by
  induction l with
  | nil => intro b; rfl
  | cons a l ih =>
    intro b
    simp only [List.foldl_cons]
    rw [ih, List.length_set]

/-- If flag `i` is on, the inner extension fold turns on position
`(i + n - neg) % n` for every `neg` it visits. -/
theorem borderSpreadFold_sets (n i : ℕ) (hn : 0 < n) (l : List ℕ) :
    ∀ (b : List Bool) (neg : ℕ), b.length = n → neg ∈ l → b.getD i false = true →
      (l.foldl (fun b neg => b.set ((i + n - neg) % n)
        (b.getD ((i + n - neg) % n) false || b.getD i false)) b).getD
          ((i + n - neg) % n) false = true := by
  induction l with
  | nil => intro b neg _ h; simp at h
  | cons a l ih =>
    intro b neg hlen hmem hi
    simp only [List.foldl_cons]
    by_cases ha : neg = a
    · subst ha
      apply borderSpreadFold_mono
      have hk : (i + n - neg) % n < b.length := by
        rw [hlen]; exact Nat.mod_lt _ hn
      rw [hi, List.getD_eq_getElem?_getD, List.getElem?_set_self hk]
      simp
    · rcases List.mem_cons.mp hmem with h | h
      · exact absurd h ha
      · exact ih _ neg (by rw [List.length_set, hlen]) h (getD_set_or b _ i _ hi)

/-- One outer extension iteration only turns flags on. -/
theorem borderSpread_mono (n : ℕ) (b : List Bool) (i j : ℕ)
    (hj : b.getD j false = true) : (borderSpread n b i).getD j false = true :=
  borderSpreadFold_mono n i (List.range BORDER_MIN_COUNT) b j hj

/-- One outer extension iteration preserves length. -/
theorem borderSpread_length (n : ℕ) (b : List Bool) (i : ℕ) :
    (borderSpread n b i).length = b.length :=
  borderSpreadFold_length n i (List.range BORDER_MIN_COUNT) b

/-- The outer extension fold only turns flags on. -/
theorem borderOuter_mono (n : ℕ) (l : List ℕ) :
    ∀ (b : List Bool) (j : ℕ), b.getD j false = true →
      (l.foldl (borderSpread n) b).getD j false = true := by
  induction l with
  | nil => intro b j hj; exact hj
  | cons a l ih =>
    intro b j hj
    simp only [List.foldl_cons]
    exact ih _ j (borderSpread_mono n b a j hj)

/-- If flag `i` is on entering the outer extension fold and iteration
`i` is still to come, every position `(i + n - neg) % n` with
`neg < BORDER_MIN_COUNT` ends up on. -/
theorem borderOuter_sets (n : ℕ) (hn : 0 < n) (l : List ℕ) :
    ∀ (b : List Bool) (i neg : ℕ), b.length = n → i ∈ l →
      b.getD i false = true → neg < BORDER_MIN_COUNT →
      (l.foldl (borderSpread n) b).getD ((i + n - neg) % n) false = true := by
  induction l with
  | nil => intro b i neg _ h; simp at h
  | cons a l ih =>
    intro b i neg hlen hmem hi hneg
    simp only [List.foldl_cons]
    by_cases ha : i = a
    · subst ha
      apply borderOuter_mono
      exact borderSpreadFold_sets n i hn (List.range BORDER_MIN_COUNT) b neg hlen
        (List.mem_range.mpr hneg) hi
    · rcases List.mem_cons.mp hmem with h | h
      · exact absurd h ha
      · exact ih _ i neg (by rw [borderSpread_length, hlen]) h
          (borderSpread_mono n b a i hi) hneg

/-- C6 counterexample: on `sharpTrack` the completed border flags are
`[F,F,F,F,T,T,T,T]` (detection flags index 7 only, extension turns on
7,6,5,4); index 4 is flagged but its predecessor 3 is not, so the
final flags are not closed under the extend-backward rule: the rule
holds only for detection-pass flags, and positions flagged by the
extension pass do not get their own predecessors flagged. -/
theorem borderFlags_not_closed :
    (borderFlags sharpTrack).getD 4 false = true ∧
    (borderFlags sharpTrack).getD 3 false = false := by
  have h1 : borderPass1 sharpTrack =
      [false, false, false, false, false, false, false, true] := by
    norm_num [borderPass1, borderGood, sharpTrack, flatSeg, sharpSeg, BORDER_MIN_COUNT,
      TRACK_TURN_RATE, List.range_succ, List.getD]
  have h2 : borderFlags sharpTrack =
      [false, false, false, false, true, true, true, true] := by
    show (List.range sharpTrack.length).foldl (borderSpread sharpTrack.length)
      (borderPass1 sharpTrack) = _
    rw [h1]
    decide
  rw [h2]
  exact ⟨rfl, rfl⟩

/-- C6 amended: the completed border flags extend every flag of the
*detection pass* backward: if the detection pass (lines 365-374)
flagged segment `i`, then after the extension pass segment `i` and
each of its `BORDER_MIN_COUNT - 1` immediately preceding segments
(indices mod the track length) are flagged.  (The stated closure of
the *final* flags fails, by `borderFlags_not_closed`.) -/
theorem borderFlags_extends_pass1 (track : List Segment) (i neg : ℕ)
    (hi : i < track.length) (hneg : neg < BORDER_MIN_COUNT)
    (hpass : (borderPass1 track).getD i false = true) :
    (borderFlags track).getD ((i + track.length - neg) % track.length) false = true := by
  unfold borderFlags
  apply borderOuter_sets track.length (by omega) (List.range track.length)
    (borderPass1 track) i neg ?_ (List.mem_range.mpr hi) hpass hneg
  unfold borderPass1
  simp

/-- Witness for the amended C6: on `sharpTrack`, detection flags index
7, so position `(7 + 8 - 3) % 8 = 4` is flagged in the final result. -/
theorem borderFlags_extends_pass1_witness :
    (borderFlags sharpTrack).getD ((7 + sharpTrack.length - 3) % sharpTrack.length)
      false = true := by
  apply borderFlags_extends_pass1 sharpTrack 7 3 (by decide) (by decide)
  norm_num [borderPass1, borderGood, sharpTrack, flatSeg, sharpSeg, BORDER_MIN_COUNT,
    TRACK_TURN_RATE, List.range_succ, List.getD]

/-! ## C5: `_remove_roads` frame effect -/

/-- `np.delete` (modelled by `deleteIdx`) keeps a subsequence: the
survivors retain their original relative order. -/
theorem deleteIdx_sublist {α : Type} (rm : List ℕ) :
    ∀ (l : List α) (i : ℕ), (deleteIdx rm l i).Sublist l := by
  intro l
  induction l with
  | nil => intro i; simp [deleteIdx]
  | cons a l ih =>
    intro i
    unfold deleteIdx
    split
    · exact (ih (i + 1)).cons a
    · exact (ih (i + 1)).cons₂ a

/-- C5: the Intersection Resolver deletes segments only from the
secondary track: the primary track 0 (and any later tracks) come back
unchanged, the surviving secondary segments keep their relative order
(a sublist of track 1), and with `num_tracks ≤ 1` nothing at all is
modified. -/
theorem removeRoads_frame (nt : ℤ) (t1 t2 : List Segment) (rest : List (List Segment)) :
    (nt ≤ 1 → removeRoads nt (t1 :: t2 :: rest) = t1 :: t2 :: rest) ∧
    ∃ t2', removeRoads nt (t1 :: t2 :: rest) = t1 :: t2' :: rest ∧ t2'.Sublist t2 := by
  by_cases h : nt > 1
  · constructor
    · intro hle
      omega
    · refine ⟨_, ?_, deleteIdx_sublist
        (removedIdx (t1.map segCoords) (t2.map segCoords)
          (trueIntersections ((t2.map segCoords).filter fun c =>
            (t1.map segCoords).any fun c1 =>
              decide (distSq c1.2 c.2 ≤ (TRACK_WIDTH / 3.5) ^ 2)))) t2 0⟩
      unfold removeRoads
      rw [if_pos h]
  · have hid : removeRoads nt (t1 :: t2 :: rest) = t1 :: t2 :: rest := by
      unfold removeRoads
      rw [if_neg h]
    exact ⟨fun _ => hid, t2, hid, List.Sublist.refl t2⟩

/-- Witness for C5 with one-segment tracks and `num_tracks = 1`. -/
theorem removeRoads_frame_witness :
    removeRoads 1 [[flatSeg], [sharpSeg]] = [[flatSeg], [sharpSeg]] :=
  (removeRoads_frame 1 [flatSeg] [sharpSeg] []).1 (by norm_num)

/-! ## C3: closure check and segment conversion -/

/-- C3: after extraction, `_get_track` fails exactly when the squared
perpendicular closure gap exceeds `TRACK_DETAIL_STEP²` (the source
compares `np.sqrt` of the gap against `TRACK_DETAIL_STEP`; both sides
are nonnegative, so the squared comparison is equivalent); when the
check passes, the result is the segment list whose `i`-th entry is
`(point (i-1) mod n, point i)` — Python's `track[i-1]` wrapping to the
last point at `i = 0`. -/
theorem glueAndSegments_spec (rcos rsin : ℚ → ℚ) (tr : List TrackPoint) :
    (glueAndSegments rcos rsin tr = none ↔
      TRACK_DETAIL_STEP ^ 2 < wellGluedSq rcos rsin tr) ∧
    (∀ segs, glueAndSegments rcos rsin tr = some segs →
      segs.length = tr.length ∧
      ∀ i, i < tr.length →
        segs.getD i default =
          (tr.getD ((i + tr.length - 1) % tr.length) default, tr.getD i default)) := by
  constructor
  · unfold glueAndSegments
    split
    · simpa using by assumption
    · simp only [reduceCtorEq, false_iff, not_lt]
      exact le_of_not_lt (by assumption)
  · intro segs hs
    unfold glueAndSegments at hs
    split at hs
    · exact absurd hs (by simp)
    · have hseg : segs = segPairs tr := by
        injection hs with h
        exact h.symm
      subst hseg
      constructor
      · unfold segPairs
        simp
      · intro i hi
        unfold segPairs
        rw [List.getD_eq_getElem?_getD, List.getElem?_map, List.getElem?_range hi]
        rfl

/-- Witness for C3 on the one-point track `[⟨0,0,0,0⟩]` with the zero
cosine/sine oracle: the gap is `0`, the check passes, and segment 0 is
the wrapped pair `(point 0, point 0)`. -/
theorem glueAndSegments_spec_witness :
    (segPairs [(⟨0, 0, 0, 0⟩ : TrackPoint)]).getD 0 default =
      ((⟨0, 0, 0, 0⟩ : TrackPoint), (⟨0, 0, 0, 0⟩ : TrackPoint)) :=
  ((glueAndSegments_spec (fun _ => 0) (fun _ => 0) [⟨0, 0, 0, 0⟩]).2
      (segPairs [⟨0, 0, 0, 0⟩])
      (by norm_num [glueAndSegments, wellGluedSq, TRACK_DETAIL_STEP, SCALE])).2
    0 (by norm_num)

/-! ## C9: termination and budget of the path-walking loop -/

/-- The scan pass never moves the cursor backward. -/
theorem scanPass_ge (cps : List Checkpoint) (alpha : ℚ) (di : ℕ) :
    (∀ d, scanPass cps alpha di = .ok d → di ≤ d) ∧
    (∀ e, scanPass cps alpha di = .error e → di ≤ e) := by
  induction di using scanPass.induct cps alpha with
  | case1 di h0 =>
    constructor
    · intro d h
      rw [scanPass, dif_pos h0] at h
      injection h with h2
      omega
    · intro e h
      rw [scanPass, dif_pos h0] at h
      exact Except.noConfusion h
  | case2 di h0 hle =>
    constructor
    · intro d h
      rw [scanPass, dif_neg h0, if_pos hle] at h
      injection h with h2
      omega
    · intro e h
      rw [scanPass, dif_neg h0, if_pos hle] at h
      exact Except.noConfusion h
  | case3 di h0 hle h1 =>
    constructor
    · intro d h
      rw [scanPass, dif_neg h0, if_neg hle, dif_pos h1] at h
      exact Except.noConfusion h
    · intro e h
      rw [scanPass, dif_neg h0, if_neg hle, dif_pos h1] at h
      injection h with h2
      omega
  | case4 di h0 hle h1 ih =>
    constructor
    · intro d h
      rw [scanPass, dif_neg h0, if_neg hle, dif_neg h1] at h
      exact le_trans (by omega) (ih.1 d h)
    · intro e h
      rw [scanPass, dif_neg h0, if_neg hle, dif_neg h1] at h
      exact le_trans (by omega) (ih.2 e h)

/-- The destination-search loop never moves the cursor backward. -/
theorem findDest_ge (cps : List Checkpoint) :
    ∀ (alpha : ℚ) (di : ℕ), di ≤ (findDest cps alpha di).2 := by
  intro alpha di
  induction alpha, di using findDest.induct cps with
  | case1 alpha di di' hok =>
    rw [findDest]
    split
    · rename_i d heq
      exact (scanPass_ge cps alpha di).1 d heq
    · rename_i e heq
      rw [hok] at heq
      exact Except.noConfusion heq
  | case2 alpha di diEnd herr ih =>
    rw [findDest]
    split
    · rename_i d heq
      rw [herr] at heq
      exact Except.noConfusion heq
    · rename_i e heq
      rw [herr] at heq
      injection heq with h2
      subst h2
      exact le_trans ((scanPass_ge cps alpha di).2 diEnd herr) ih

/-- The walk loop performs at most `nf` iterations, emitting one point
per iteration. -/
theorem walkGo_length_le (rcos rsin : ℚ → ℚ) (ratan2 : ℚ → ℚ → ℚ)
    (cps : List Checkpoint) :
    ∀ (nf : ℕ) (s : WalkState), (walkGo rcos rsin ratan2 cps nf s).length ≤ nf := by
  intro nf
  induction nf with
  | zero => intro s; simp [walkGo]
  | succ nf ih =>
    intro s
    simp only [walkGo]
    split
    · simp
    · split
      · simp
      · simpa using ih _

/-- C9: the path walk of `_get_track` terminates.  The inner
destination scan always exits (both `scanPass` and `findDest` are
total functions of their arguments, proved by well-founded recursion)
and the cursor only moves forward; each outer iteration emits exactly
one `TrackPoint` and the loop stops as soon as the updated lap counter
exceeds 4, or after at most 2500 iterations (`no_freeze`), whichever
comes first — so the walk from any state with budget `nf` emits at most
`nf` points, and the full walk at most 2500. -/
theorem walk_terminates (rcos rsin : ℚ → ℚ) (ratan2 : ℚ → ℚ → ℚ)
    (cps : List Checkpoint) :
    (∀ (alpha : ℚ) (di : ℕ), di ≤ (findDest cps alpha di).2) ∧
    (∀ (nf : ℕ) (s : WalkState), (walkGo rcos rsin ratan2 cps nf s).length ≤ nf) ∧
    (walkTrack rcos rsin ratan2 cps).length ≤ 2500 ∧
    (∀ (nf : ℕ) (s : WalkState), 4 < (walkStep rcos rsin ratan2 cps s).2.laps →
      walkGo rcos rsin ratan2 cps (nf + 1) s = [(walkStep rcos rsin ratan2 cps s).1]) := by
  refine ⟨findDest_ge cps, walkGo_length_le rcos rsin ratan2 cps,
    walkGo_length_le rcos rsin ratan2 cps 2500 _, ?_⟩
  intro nf s h
  simp only [walkGo]
  rw [if_pos h]

/-- Witness for C9 with the single checkpoint `(0,0,0)` and the zero
math oracle. -/
theorem walk_terminates_witness :
    (walkTrack (fun _ => 0) (fun _ => 0) (fun _ _ => 0) [⟨0, 0, 0⟩]).length ≤ 2500 :=
  (walk_terminates (fun _ => 0) (fun _ => 0) (fun _ _ => 0) [⟨0, 0, 0⟩]).2.2.1

end CarRacing
